import Mathlib

/-!
Shallow embedding of the orco scheduling and persistence core
(src/orco/db.py and src/orco/runtime.py) and proofs about it.

Modelling conventions:
* SQL tables become Lean lists of structures; a row is a structure whose
  fields carry the column names of the schema in db.py.
* Opaque blobs and TEXT timestamps are modelled as `String`; epoch times
  (what STRFTIME with format %s yields) and `heartbeat_interval` are
  modelled as `Int` at one-second granularity (the schema declares the
  interval as FLOAT; no claim depends on fractional seconds).
* NULLable columns become `Option`.
* Each Store operation is the effect of the SQL statements it issues,
  translated line by line from db.py.
-/

/-- Row of the `entries` table (db.py, `DB.init`). The PRIMARY KEY is
`(collection, key)`; this is the `entriesWF` predicate below. -/
structure EntryRow where
  collection : String
  key : String
  config : String
  value : Option String
  value_repr : Option String
  created : Option String
  executor : Option Nat
  deriving DecidableEq

/-- Row of the `executors` table (db.py, `DB.init`). The columns
`created`, `type`, `version` and `resources` are opaque TEXT never read
by the operations the claims are about, so they are omitted here.
`heartbeat` is kept as an epoch second count, which is what the queries
read from it via STRFTIME. `stats` is NULLable TEXT. -/
structure ExecRow where
  id : Nat
  heartbeat : Int
  heartbeat_interval : Int
  stats : Option String
  deriving DecidableEq

/-- Row of the `deps` table (db.py, `DB.init`). In `announce_entries`
the source columns receive the dependency and the target columns the
consumer: for a pair `(r1, r2)` of `deps`, `r1` is an input of `r2`. -/
structure DepRow where
  collection_s : String
  key_s : String
  collection_t : String
  key_t : String
  deriving DecidableEq

/-- The persistent state: the three tables of the schema that the
claims mention (the `collections` table only backs a foreign key and an
insert-if-absent helper, so it is not carried). -/
structure DBState where
  entries : List EntryRow
  deps : List DepRow
  executors : List ExecRow
  deriving DecidableEq

/-- DB.LIVE_EXECUTOR_QUERY (db.py line 36):
`(STRFTIME(heartbeat) + heartbeat_interval * 2) - STRFTIME(now) >= 0`.
Note that the query does not look at `stats`. -/
def liveExecutorQuery (now : Int) (e : ExecRow) : Bool :=
  decide (e.heartbeat + e.heartbeat_interval * 2 - now ≥ 0)

/-- DB.DEAD_EXECUTOR_QUERY (db.py line 35): the strict complement. -/
def deadExecutorQuery (now : Int) (e : ExecRow) : Bool :=
  decide (e.heartbeat + e.heartbeat_interval * 2 - now < 0)

/-- The condition `executor is null OR executor in (SELECT id FROM
executors WHERE LIVE_EXECUTOR_QUERY)` used by `get_entry_state`.
SQL `x IN (...)` on a NULL x is not true, which the match respects. -/
def executorVisible (now : Int) (execs : List ExecRow) : Option Nat → Bool
  | none => true
  | some x => execs.any (fun e => decide (e.id = x) && liveExecutorQuery now e)

/-- Result values of `DB.get_entry_state` ("finished" / "announced" in
the Python source; `none` models the Python None). -/
inductive EState where
  | finished
  | announced
  deriving DecidableEq

/-- DB.get_entry_state (db.py lines 186-199): one SELECT returning
`value is not null` for the row at `(collection, key)` that is finished,
ownerless or owned by an executor satisfying LIVE_EXECUTOR_QUERY;
no row means None. -/
def get_entry_state (now : Int) (db : DBState) (collection key : String) :
    Option EState :=
  match db.entries.find? (fun e =>
      decide (e.collection = collection ∧ e.key = key) &&
      (e.value.isSome || executorVisible now db.executors e.executor)) with
  | none => none
  | some e => if e.value.isSome then some .finished else some .announced

/-- Condition of the UPDATE in `DB.set_entry_value` (db.py line 154):
`collection = ? AND key = ? AND executor = ? AND value is null`.
SQL equality against the bound executor id is never true on a NULL
`executor` column. -/
def setEntryValueHit (executor_id : Nat) (collection key : String)
    (e : EntryRow) : Bool :=
  decide (e.collection = collection ∧ e.key = key ∧
    e.executor = some executor_id ∧ e.value = none)

/-- Per-row effect of the UPDATE of `DB.set_entry_value`: a matching
row gets the new `value`, `value_repr` and `created`. -/
def setValRow (executor_id : Nat) (collection key : String)
    (value value_repr created : String) (e : EntryRow) : EntryRow :=
  if setEntryValueHit executor_id collection key e then
    { e with value := some value, value_repr := some value_repr,
             created := some created }
  else e

/-- Effect of the UPDATE statement of `DB.set_entry_value`: every
matching row gets the new `value`, `value_repr` and `created`; the
rowcount is the number of matching rows. -/
def setEntryValueUpdate (executor_id : Nat) (collection key : String)
    (value value_repr created : String) (db : DBState) : Nat × DBState :=
  (db.entries.countP (setEntryValueHit executor_id collection key),
   { db with entries :=
       db.entries.map (setValRow executor_id collection key value value_repr created) })

/-- DB.set_entry_value (db.py lines 150-164): run the UPDATE inside a
transaction (which commits, since no IntegrityError can arise from an
UPDATE here), then raise unless the rowcount is exactly 1. The error
case carries the committed state. -/
def set_entry_value (executor_id : Nat) (collection key : String)
    (value value_repr created : String) (db : DBState) :
    Except (String × DBState) DBState :=
  let r := setEntryValueUpdate executor_id collection key value value_repr created db
  if r.1 = 1 then .ok r.2
  else .error ("Setting value to unannouced config", r.2)

/-- True when a row with the given primary key was removed, i.e. is in
`old` but each row of `kept` with that key is absent. Used to model the
ON DELETE CASCADE from `deps` to `entries` on both endpoints. -/
def keyRemoved (old kept : List EntryRow) (c k : String) : Bool :=
  old.any (fun e => decide (e.collection = c ∧ e.key = k ∧ e ∉ kept))

/-- Cascade step: deleting entry rows deletes every `deps` row whose
source or target endpoint was one of the deleted entries (constraints
entry_s_ref / entry_t_ref, db.py lines 118-125). -/
def cascadeDeps (old kept : List EntryRow) (deps : List DepRow) : List DepRow :=
  deps.filter (fun d =>
    !(keyRemoved old kept d.collection_s d.key_s) &&
    !(keyRemoved old kept d.collection_t d.key_t))

/-- Effect of the DELETE statement inside `DB._cleanup_lost_entries`
(db.py line 261): delete entries with NULL `value` owned by an executor
matching DEAD_EXECUTOR_QUERY, cascading to `deps`. (In the source this
statement is only ever issued from `announce_entries`, and the
surrounding control flow never actually reaches it; see `Conn` below.) -/
def cleanup_lost_entries (now : Int) (db : DBState) : DBState :=
  let kept := db.entries.filter (fun e =>
    !(decide (e.value = none) &&
      (match e.executor with
       | none => false
       | some x => db.executors.any (fun ex =>
           decide (ex.id = x) && deadExecutorQuery now ex))))
  { db with entries := kept, deps := cascadeDeps db.entries kept db.deps }

/-- DB.stop_executor (db.py lines 353-358): one transaction running an
UPDATE (heartbeat refreshed, `stats` set to NULL) followed by a DELETE
of the unfinished entries owned by that executor, cascading to `deps`. -/
def stop_executor (now : Int) (id : Nat) (db : DBState) : DBState :=
  let execs := db.executors.map (fun e =>
    if e.id = id then { e with heartbeat := now, stats := none } else e)
  let kept := db.entries.filter (fun e =>
    !(decide (e.executor = some id ∧ e.value = none)))
  { entries := kept, deps := cascadeDeps db.entries kept db.deps,
    executors := execs }

/-- Per-row effect of the UPDATE in `DB.update_heartbeat` (db.py lines
337-341): refresh `heartbeat` only where `id = ? AND stats is not null`. -/
def updateHeartbeatRow (id : Nat) (now : Int) (e : ExecRow) : ExecRow :=
  if e.id = id ∧ e.stats.isSome then { e with heartbeat := now } else e

/-- DB.update_heartbeat: apply the guarded UPDATE to the table. -/
def update_heartbeat (id : Nat) (now : Int) (db : DBState) : DBState :=
  { db with executors := db.executors.map (updateHeartbeatRow id now) }

/-- A sequence of `update_heartbeat` calls, each with its own id and
wall-clock time, applied in order. -/
def runHeartbeats (db : DBState) (calls : List (Nat × Int)) : DBState :=
  calls.foldl (fun d c => update_heartbeat c.1 c.2 d) db

/-- The fold of the per-row update over a call sequence. -/
def heartbeatRowFold (calls : List (Nat × Int)) (e : ExecRow) : ExecRow :=
  calls.foldl (fun r c => updateHeartbeatRow c.1 c.2 r) e

/-- Primary-key well-formedness of the `entries` table: no two rows
share `(collection, key)`. -/
def entriesWF (db : DBState) : Prop :=
  db.entries.Pairwise (fun a b => ¬(a.collection = b.collection ∧ a.key = b.key))

/-- Rows with the same primary key in a pairwise key-distinct list are
the same row. -/
theorem key_unique_of_pairwise {l : List EntryRow}
    (hwf : l.Pairwise (fun a b => ¬(a.collection = b.collection ∧ a.key = b.key)))
    {e1 e2 : EntryRow} (h1 : e1 ∈ l) (h2 : e2 ∈ l)
    (hc : e1.collection = e2.collection) (hk : e1.key = e2.key) : e1 = e2 := by
  induction l with
  | nil => cases h1
  | cons a t ih =>
    rcases List.pairwise_cons.mp hwf with ⟨ha, ht⟩
    rcases List.mem_cons.mp h1 with rfl | h1t
    · rcases List.mem_cons.mp h2 with rfl | h2t
      · rfl
      · exact absurd ⟨hc, hk⟩ (ha e2 h2t)
    · rcases List.mem_cons.mp h2 with rfl | h2t
      · exact absurd ⟨hc.symm, hk.symm⟩ (ha e1 h1t)
      · exact ih ht h1t h2t

/-- Rows with the same primary key in a well-formed table are the same row. -/
theorem entriesWF_key_unique {db : DBState} (hwf : entriesWF db)
    {e1 e2 : EntryRow} (h1 : e1 ∈ db.entries) (h2 : e2 ∈ db.entries)
    (hc : e1.collection = e2.collection) (hk : e1.key = e2.key) : e1 = e2 :=
  key_unique_of_pairwise hwf h1 h2 hc hk

theorem updateHeartbeatRow_stopped (id : Nat) (now : Int) (e : ExecRow)
    (h : e.stats = none) : updateHeartbeatRow id now e = e := by
  unfold updateHeartbeatRow
  rw [if_neg]
  rintro ⟨-, hs⟩
  rw [h] at hs
  cases hs

theorem heartbeatRowFold_stopped (calls : List (Nat × Int)) (e : ExecRow)
    (h : e.stats = none) : heartbeatRowFold calls e = e := by
  induction calls with
  | nil => rfl
  | cons c cs ih =>
    show heartbeatRowFold cs (updateHeartbeatRow c.1 c.2 e) = e
    rw [updateHeartbeatRow_stopped c.1 c.2 e h]
    exact ih

theorem runHeartbeats_eq_map (db : DBState) (calls : List (Nat × Int)) :
    (runHeartbeats db calls).executors = db.executors.map (heartbeatRowFold calls) := by
  induction calls generalizing db with
  | nil =>
    show db.executors = db.executors.map (heartbeatRowFold [])
    have h : db.executors.map (heartbeatRowFold []) = db.executors.map id := rfl
    rw [h, List.map_id]
  | cons c cs ih =>
    show (runHeartbeats (update_heartbeat c.1 c.2 db) cs).executors = _
    rw [ih]
    show ((db.executors.map (updateHeartbeatRow c.1 c.2)).map (heartbeatRowFold cs)) = _
    rw [List.map_map]
    rfl

/-- C10: `update_heartbeat` is guarded by `stats is not null`, so for an
executor row whose `stats` is NULL no sequence of `update_heartbeat`
calls (any ids, any wall-clock times) changes it: its heartbeat and its
`stats` stay exactly as they were, so heartbeats alone can never bring a
cleanly stopped executor back to life. -/
theorem update_heartbeat_noop_for_stopped (calls : List (Nat × Int))
    (db : DBState) (e : ExecRow) (hstats : e.stats = none) :
    heartbeatRowFold calls e = e ∧
    (runHeartbeats db calls).executors = db.executors.map (heartbeatRowFold calls) ∧
    (heartbeatRowFold calls e).stats = none ∧
    (heartbeatRowFold calls e).heartbeat = e.heartbeat := by
  have h1 := heartbeatRowFold_stopped calls e hstats
  exact ⟨h1, runHeartbeats_eq_map db calls, by rw [h1]; exact hstats, by rw [h1]⟩

/-- Witness for C10 at a concrete stopped executor and call sequence. -/
theorem update_heartbeat_noop_for_stopped_witness :
    heartbeatRowFold [(1, 50), (1, 90)] ⟨1, 10, 5, none⟩ = ⟨1, 10, 5, none⟩ ∧
    (runHeartbeats ⟨[], [], [⟨1, 10, 5, none⟩]⟩ [(1, 50), (1, 90)]).executors =
      [⟨1, 10, 5, none⟩].map (heartbeatRowFold [(1, 50), (1, 90)]) ∧
    (heartbeatRowFold [(1, 50), (1, 90)] ⟨1, 10, 5, none⟩).stats = none ∧
    (heartbeatRowFold [(1, 50), (1, 90)] ⟨1, 10, 5, none⟩).heartbeat = 10 :=
  update_heartbeat_noop_for_stopped [(1, 50), (1, 90)]
    ⟨[], [], [⟨1, 10, 5, none⟩]⟩ ⟨1, 10, 5, none⟩ rfl

/-- Liveness exactly as claim C3 words it (spec section 4.3): an
executor is live iff `now - heartbeat <= 2 * heartbeat_interval` AND
`stats is not null`. Stated from the claim, for comparison with the
`LIVE_EXECUTOR_QUERY` the code actually uses, which has no stats
conjunct. -/
def liveExecutorClaim (now : Int) (e : ExecRow) : Prop :=
  now - e.heartbeat ≤ 2 * e.heartbeat_interval ∧ e.stats ≠ none

/-- A cleanly stopped executor (stats NULL) whose heartbeat is still
fresh: dead per the claim, live per LIVE_EXECUTOR_QUERY. -/
def c3Exec : ExecRow := ⟨1, 100, 10, none⟩

/-- An announced entry owned by `c3Exec`. -/
def c3Entry : EntryRow := ⟨"c", "k", "cfg", none, none, none, some 1⟩

/-- State holding just that executor and entry. -/
def c3DB : DBState := ⟨[c3Entry], [], [c3Exec]⟩

/-- Counterexample to C3: at time 100 the only executor has NULL stats,
so by the liveness definition in the claim it is not live and the claim
requires `get_entry_state` to answer missing (None) for the value-NULL
entry it owns; the code answers announced, because LIVE_EXECUTOR_QUERY
checks only the heartbeat. -/
theorem get_entry_state_stats_counterexample :
    get_entry_state 100 c3DB "c" "k" = some .announced ∧
    (∀ e ∈ c3DB.executors, ¬ liveExecutorClaim 100 e) ∧
    c3Entry ∈ c3DB.entries ∧ c3Entry.value = none ∧
    c3Entry.executor = some c3Exec.id := by
  refine ⟨by decide, ?_, by decide, by decide, by decide⟩
  intro e he
  have h1 : e = c3Exec := List.mem_singleton.mp he
  rw [h1]
  rintro ⟨-, hs⟩
  exact hs rfl

/-- Unfolding of the membership test against the live-executor
subquery into the facts it checks. -/
theorem executorVisible_iff (now : Int) (execs : List ExecRow) (oe : Option Nat) :
    executorVisible now execs oe = true ↔
      oe = none ∨ ∃ x ∈ execs, oe = some x.id ∧
        now - x.heartbeat ≤ x.heartbeat_interval * 2 := by
  cases oe with
  | none => simp [executorVisible]
  | some v =>
    simp only [executorVisible, List.any_eq_true, Bool.and_eq_true,
      decide_eq_true_eq, liveExecutorQuery, Option.some.injEq]
    constructor
    · rintro ⟨x, hx, rfl, hlive⟩
      exact Or.inr ⟨x, hx, rfl, by omega⟩
    · rintro (h | ⟨x, hx, hv, hlive⟩)
      · cases h
      · exact ⟨x, hx, hv.symm, by omega⟩

/-- Unfolding of the row filter of the SELECT in `get_entry_state`. -/
theorem gesPred_iff (now : Int) (db : DBState) (c k : String) (e : EntryRow) :
    (decide (e.collection = c ∧ e.key = k) &&
      (e.value.isSome || executorVisible now db.executors e.executor)) = true ↔
    (e.collection = c ∧ e.key = k) ∧ (e.value ≠ none ∨
      (e.executor = none ∨ ∃ x ∈ db.executors, e.executor = some x.id ∧
        now - x.heartbeat ≤ x.heartbeat_interval * 2)) := by
  simp [executorVisible_iff, Option.isSome_iff_ne_none]

/-- C3 amended: the three outcomes of `get_entry_state`, with liveness
as the code defines it (heartbeat freshness only, no stats conjunct):
finished iff a row exists with non-NULL value; announced iff a row
exists with NULL value whose executor is NULL or has a fresh heartbeat;
missing iff every row at the key (in particular, none) has NULL value
and an executor that is neither NULL nor fresh. -/
theorem get_entry_state_trichotomy (now : Int) (db : DBState) (c k : String)
    (hwf : entriesWF db) :
    (get_entry_state now db c k = some .finished ↔
      ∃ e ∈ db.entries, e.collection = c ∧ e.key = k ∧ e.value ≠ none) ∧
    (get_entry_state now db c k = some .announced ↔
      ∃ e ∈ db.entries, e.collection = c ∧ e.key = k ∧ e.value = none ∧
        (e.executor = none ∨ ∃ x ∈ db.executors, e.executor = some x.id ∧
          now - x.heartbeat ≤ x.heartbeat_interval * 2)) ∧
    (get_entry_state now db c k = none ↔
      ∀ e ∈ db.entries, e.collection = c ∧ e.key = k →
        e.value = none ∧ ¬(e.executor = none ∨
          ∃ x ∈ db.executors, e.executor = some x.id ∧
            now - x.heartbeat ≤ x.heartbeat_interval * 2)) := by
  cases h : db.entries.find? (fun e =>
      decide (e.collection = c ∧ e.key = k) &&
      (e.value.isSome || executorVisible now db.executors e.executor)) with
  | none =>
    have hall := List.find?_eq_none.mp h
    have hres : get_entry_state now db c k = none := by
      simp only [get_entry_state, h]
    refine ⟨?_, ?_, ?_⟩
    · refine iff_of_false (by rw [hres]; exact fun hx => by cases hx) ?_
      rintro ⟨e, he, hc, hk, hv⟩
      exact hall e he ((gesPred_iff now db c k e).mpr ⟨⟨hc, hk⟩, Or.inl hv⟩)
    · refine iff_of_false (by rw [hres]; exact fun hx => by cases hx) ?_
      rintro ⟨e, he, hc, hk, hv, hvis⟩
      exact hall e he ((gesPred_iff now db c k e).mpr ⟨⟨hc, hk⟩, Or.inr hvis⟩)
    · refine iff_of_true hres ?_
      intro e he hck
      have hne := hall e he
      rw [gesPred_iff] at hne
      have h2 : ¬(e.value ≠ none ∨ (e.executor = none ∨
          ∃ x ∈ db.executors, e.executor = some x.id ∧
            now - x.heartbeat ≤ x.heartbeat_interval * 2)) :=
        fun hx => hne ⟨hck, hx⟩
      rcases not_or.mp h2 with ⟨hv, hvis⟩
      exact ⟨not_not.mp hv, hvis⟩
  | some e =>
    have hmem := List.mem_of_find?_eq_some h
    have hpe := List.find?_some h
    rcases (gesPred_iff now db c k e).mp hpe with ⟨⟨hc, hk⟩, hrest⟩
    cases hv : e.value with
    | some v =>
      have hres : get_entry_state now db c k = some .finished := by
        simp only [get_entry_state, h, hv]
        rfl
      refine ⟨?_, ?_, ?_⟩
      · refine iff_of_true hres ⟨e, hmem, hc, hk, ?_⟩
        rw [hv]
        exact fun hx => by cases hx
      · refine iff_of_false (by rw [hres]; exact fun hx => by cases hx) ?_
        rintro ⟨e2, hm2, hc2, hk2, hv2, -⟩
        have he2 : e2 = e :=
          entriesWF_key_unique hwf hm2 hmem (hc2.trans hc.symm) (hk2.trans hk.symm)
        rw [he2, hv] at hv2
        cases hv2
      · refine iff_of_false (by rw [hres]; exact fun hx => by cases hx) ?_
        intro hforall
        rcases hforall e hmem ⟨hc, hk⟩ with ⟨hv2, -⟩
        rw [hv] at hv2
        cases hv2
    | none =>
      have hres : get_entry_state now db c k = some .announced := by
        simp only [get_entry_state, h, hv]
        rfl
      have hvis : e.executor = none ∨ ∃ x ∈ db.executors, e.executor = some x.id ∧
          now - x.heartbeat ≤ x.heartbeat_interval * 2 := by
        rcases hrest with hvne | hvis
        · exact absurd hv hvne
        · exact hvis
      refine ⟨?_, ?_, ?_⟩
      · refine iff_of_false (by rw [hres]; exact fun hx => by cases hx) ?_
        rintro ⟨e2, hm2, hc2, hk2, hv2⟩
        have he2 : e2 = e :=
          entriesWF_key_unique hwf hm2 hmem (hc2.trans hc.symm) (hk2.trans hk.symm)
        rw [he2, hv] at hv2
        exact hv2 rfl
      · exact iff_of_true hres ⟨e, hmem, hc, hk, hv, hvis⟩
      · refine iff_of_false (by rw [hres]; exact fun hx => by cases hx) ?_
        intro hforall
        rcases hforall e hmem ⟨hc, hk⟩ with ⟨-, hnvis⟩
        exact hnvis hvis

/-- Witness for the amended C3 trichotomy at the concrete state `c3DB`. -/
theorem get_entry_state_trichotomy_witness :
    entriesWF c3DB ∧
    ((get_entry_state 100 c3DB "c" "k" = some .finished ↔
      ∃ e ∈ c3DB.entries, e.collection = "c" ∧ e.key = "k" ∧ e.value ≠ none) ∧
    (get_entry_state 100 c3DB "c" "k" = some .announced ↔
      ∃ e ∈ c3DB.entries, e.collection = "c" ∧ e.key = "k" ∧ e.value = none ∧
        (e.executor = none ∨ ∃ x ∈ c3DB.executors, e.executor = some x.id ∧
          100 - x.heartbeat ≤ x.heartbeat_interval * 2)) ∧
    (get_entry_state 100 c3DB "c" "k" = none ↔
      ∀ e ∈ c3DB.entries, e.collection = "c" ∧ e.key = "k" →
        e.value = none ∧ ¬(e.executor = none ∨
          ∃ x ∈ c3DB.executors, e.executor = some x.id ∧
            100 - x.heartbeat ≤ x.heartbeat_interval * 2))) :=
  ⟨by unfold entriesWF; decide,
   get_entry_state_trichotomy 100 c3DB "c" "k" (by unfold entriesWF; decide)⟩

/-- In a well-formed table at most one row can match the UPDATE filter
of `set_entry_value`, since the filter pins the primary key. -/
theorem countP_hit_le_one (eid : Nat) (c k : String) (db : DBState)
    (hwf : entriesWF db) :
    db.entries.countP (setEntryValueHit eid c k) ≤ 1 := by
  rw [List.countP_eq_length_filter]
  rcases hlf : db.entries.filter (setEntryValueHit eid c k) with - | ⟨a, - | ⟨b, t⟩⟩
  · simp
  · simp
  · exfalso
    have hsub : (db.entries.filter (setEntryValueHit eid c k)).Pairwise
        (fun x y => ¬(x.collection = y.collection ∧ x.key = y.key)) :=
      hwf.sublist (List.filter_sublist _)
    rw [hlf] at hsub
    rcases List.pairwise_cons.mp hsub with ⟨hab, -⟩
    have ha : setEntryValueHit eid c k a = true :=
      (List.mem_filter.mp (by rw [hlf]; exact List.mem_cons_self a (b :: t))).2
    have hb : setEntryValueHit eid c k b = true :=
      (List.mem_filter.mp (by rw [hlf]; simp)).2
    rw [setEntryValueHit, decide_eq_true_eq] at ha hb
    exact hab b (List.mem_cons_self b t) ⟨ha.1.trans hb.1.symm, ha.2.1.trans hb.2.1.symm⟩

/-- The UPDATE of `set_entry_value` never changes a primary key, so the
updated table is well-formed whenever the original is. -/
theorem setEntryValueUpdate_wf (eid : Nat) (c k v vr cr : String)
    (db : DBState) (hwf : entriesWF db) :
    entriesWF (setEntryValueUpdate eid c k v vr cr db).2 := by
  refine List.Pairwise.map _ ?_ hwf
  intro a b hab
  unfold setValRow
  by_cases ha : setEntryValueHit eid c k a = true <;>
    by_cases hb : setEntryValueHit eid c k b = true <;>
      simp only [ha, hb, if_true, if_false, Bool.false_eq_true] <;> exact hab

/-- C5: contract of `set_entry_value` on a well-formed store. The call
succeeds iff a row at `(collection, key)` exists with NULL value and
the given owning executor; on failure the store is exactly as before;
on success the key reads back finished and rows at other keys are
untouched. -/
theorem set_entry_value_contract (now : Int) (eid : Nat)
    (c k v vr cr : String) (db : DBState) (hwf : entriesWF db) :
    ((∃ db2, set_entry_value eid c k v vr cr db = .ok db2) ↔
      ∃ e ∈ db.entries, e.collection = c ∧ e.key = k ∧
        e.executor = some eid ∧ e.value = none) ∧
    (∀ msg db2, set_entry_value eid c k v vr cr db = .error (msg, db2) →
      db2 = db) ∧
    (∀ db2, set_entry_value eid c k v vr cr db = .ok db2 →
      entriesWF db2 ∧ get_entry_state now db2 c k = some .finished ∧
      ∀ e ∈ db.entries, ¬(e.collection = c ∧ e.key = k) → e ∈ db2.entries) := by
  have hle := countP_hit_le_one eid c k db hwf
  have hfst : (setEntryValueUpdate eid c k v vr cr db).1 =
      db.entries.countP (setEntryValueHit eid c k) := rfl
  have hok_iff : ∀ db2, set_entry_value eid c k v vr cr db = .ok db2 →
      db.entries.countP (setEntryValueHit eid c k) = 1 ∧
      db2 = (setEntryValueUpdate eid c k v vr cr db).2 := by
    intro db2 hok
    rw [set_entry_value] at hok
    by_cases hcnt : (setEntryValueUpdate eid c k v vr cr db).1 = 1
    · rw [if_pos hcnt] at hok
      cases hok
      exact ⟨hfst ▸ hcnt, rfl⟩
    · rw [if_neg hcnt] at hok
      cases hok
  refine ⟨?_, ?_, ?_⟩
  · constructor
    · rintro ⟨db2, hok⟩
      rcases hok_iff db2 hok with ⟨hcnt, -⟩
      rcases List.countP_pos_iff.mp (by rw [hcnt]; norm_num) with ⟨e, he, hhit⟩
      rw [setEntryValueHit, decide_eq_true_eq] at hhit
      exact ⟨e, he, hhit⟩
    · rintro ⟨e, he, hc, hk, hex, hv⟩
      have hpos : 0 < db.entries.countP (setEntryValueHit eid c k) :=
        List.countP_pos_iff.mpr ⟨e, he, by
          rw [setEntryValueHit, decide_eq_true_eq]; exact ⟨hc, hk, hex, hv⟩⟩
      have hcnt : (setEntryValueUpdate eid c k v vr cr db).1 = 1 := by
        rw [hfst]; omega
      exact ⟨_, by rw [set_entry_value, if_pos hcnt]⟩
  · intro msg db2 herr
    rw [set_entry_value] at herr
    by_cases hcnt : (setEntryValueUpdate eid c k v vr cr db).1 = 1
    · rw [if_pos hcnt] at herr
      cases herr
    · rw [if_neg hcnt] at herr
      cases herr
      have hzero : db.entries.countP (setEntryValueHit eid c k) = 0 := by
        rw [hfst] at hcnt; omega
      have hnone := List.countP_eq_zero.mp hzero
      have hmap : db.entries.map (setValRow eid c k v vr cr) = db.entries.map id :=
        List.map_congr_left (fun a ha => by
          unfold setValRow
          rw [if_neg (by simp [hnone a ha])]
          rfl)
      show (setEntryValueUpdate eid c k v vr cr db).2 = db
      unfold setEntryValueUpdate
      rw [hmap, List.map_id]
  · intro db2 hok
    rcases hok_iff db2 hok with ⟨hcnt, hdb2⟩
    have hwf2 : entriesWF db2 := hdb2 ▸ setEntryValueUpdate_wf eid c k v vr cr db hwf
    rcases List.countP_pos_iff.mp (show 0 < db.entries.countP (setEntryValueHit eid c k) by
      rw [hcnt]; norm_num) with ⟨e, he, hhit⟩
    have hhit2 := hhit
    rw [setEntryValueHit, decide_eq_true_eq] at hhit2
    refine ⟨hwf2, ?_, ?_⟩
    · rcases get_entry_state_trichotomy now db2 c k hwf2 with ⟨hfin, -, -⟩
      refine hfin.mpr ⟨setValRow eid c k v vr cr e, ?_, ?_, ?_, ?_⟩
      · rw [hdb2]
        exact List.mem_map_of_mem _ he
      · unfold setValRow
        rw [if_pos hhit]
        exact hhit2.1
      · unfold setValRow
        rw [if_pos hhit]
        exact hhit2.2.1
      · unfold setValRow
        rw [if_pos hhit]
        exact fun hx => by cases hx
    · intro e2 he2 hne
      have hmiss : ¬(setEntryValueHit eid c k e2 = true) := by
        rw [setEntryValueHit, decide_eq_true_eq]
        rintro ⟨h1, h2, -⟩
        exact hne ⟨h1, h2⟩
      have : setValRow eid c k v vr cr e2 = e2 := by
        unfold setValRow
        rw [if_neg hmiss]
      rw [hdb2]
      rw [← this]
      exact List.mem_map_of_mem _ he2

/-- Store with a single announced entry owned by executor 7, for the C5
witness. -/
def c5DB : DBState := ⟨[⟨"c", "k", "g", none, none, none, some 7⟩], [], []⟩

/-- Witness for C5 at the concrete store `c5DB`. -/
theorem set_entry_value_contract_witness :
    entriesWF c5DB ∧
    (((∃ db2, set_entry_value 7 "c" "k" "v" "r" "t" c5DB = .ok db2) ↔
      ∃ e ∈ c5DB.entries, e.collection = "c" ∧ e.key = "k" ∧
        e.executor = some 7 ∧ e.value = none) ∧
    (∀ msg db2, set_entry_value 7 "c" "k" "v" "r" "t" c5DB = .error (msg, db2) →
      db2 = c5DB) ∧
    (∀ db2, set_entry_value 7 "c" "k" "v" "r" "t" c5DB = .ok db2 →
      entriesWF db2 ∧ get_entry_state 0 db2 "c" "k" = some .finished ∧
      ∀ e ∈ c5DB.entries, ¬(e.collection = "c" ∧ e.key = "k") → e ∈ db2.entries)) :=
  ⟨by unfold entriesWF; decide,
   set_entry_value_contract 0 7 "c" "k" "v" "r" "t" c5DB (by unfold entriesWF; decide)⟩

/-- C4: monotonic finish. If `get_entry_state` answers finished at
`(c, k)` then it still answers finished, at any later wall-clock time,
after a dead-entry cleanup, after any `stop_executor`, and after the
UPDATE of any `set_entry_value`; moreover none of the three operations
modifies or deletes any row whose value is non-NULL (so `value` is set
at most once per surviving row). -/
theorem finished_monotonic (now t1 t2 : Int) (db : DBState) (c k : String)
    (eid eid2 : Nat) (c2 k2 v vr cr : String)
    (hwf : entriesWF db) (hfin : get_entry_state now db c k = some .finished) :
    get_entry_state t2 (cleanup_lost_entries t1 db) c k = some .finished ∧
    get_entry_state t2 (stop_executor t1 eid db) c k = some .finished ∧
    get_entry_state t2 (setEntryValueUpdate eid2 c2 k2 v vr cr db).2 c k = some .finished ∧
    (∀ e ∈ db.entries, e.value ≠ none →
      e ∈ (cleanup_lost_entries t1 db).entries ∧
      e ∈ (stop_executor t1 eid db).entries ∧
      e ∈ (setEntryValueUpdate eid2 c2 k2 v vr cr db).2.entries) := by
  have hkeep : ∀ e ∈ db.entries, e.value ≠ none →
      e ∈ (cleanup_lost_entries t1 db).entries ∧
      e ∈ (stop_executor t1 eid db).entries ∧
      e ∈ (setEntryValueUpdate eid2 c2 k2 v vr cr db).2.entries := by
    intro e he hv
    have hd : decide (e.value = none) = false := decide_eq_false hv
    refine ⟨List.mem_filter.mpr ⟨he, by simp [hd]⟩,
            List.mem_filter.mpr ⟨he, by simp [hv]⟩, ?_⟩
    have hmiss : ¬(setEntryValueHit eid2 c2 k2 e = true) := by
      rw [setEntryValueHit, decide_eq_true_eq]
      rintro ⟨-, -, -, hvn⟩
      exact hv hvn
    have hid : setValRow eid2 c2 k2 v vr cr e = e := by
      unfold setValRow
      rw [if_neg hmiss]
    show e ∈ db.entries.map (setValRow eid2 c2 k2 v vr cr)
    rw [← hid]
    exact List.mem_map_of_mem _ he
  rcases (get_entry_state_trichotomy now db c k hwf).1.mp hfin with ⟨e0, he0, hc0, hk0, hv0⟩
  rcases hkeep e0 he0 hv0 with ⟨hm1, hm2, hm3⟩
  have hwf1 : entriesWF (cleanup_lost_entries t1 db) :=
    hwf.sublist (List.filter_sublist _)
  have hwf2 : entriesWF (stop_executor t1 eid db) :=
    hwf.sublist (List.filter_sublist _)
  have hwf3 : entriesWF (setEntryValueUpdate eid2 c2 k2 v vr cr db).2 :=
    setEntryValueUpdate_wf eid2 c2 k2 v vr cr db hwf
  exact ⟨(get_entry_state_trichotomy t2 _ c k hwf1).1.mpr ⟨e0, hm1, hc0, hk0, hv0⟩,
         (get_entry_state_trichotomy t2 _ c k hwf2).1.mpr ⟨e0, hm2, hc0, hk0, hv0⟩,
         (get_entry_state_trichotomy t2 _ c k hwf3).1.mpr ⟨e0, hm3, hc0, hk0, hv0⟩,
         hkeep⟩

/-- Store with one finished and one announced entry plus their (by time
100, dead) owning executor, for the C4 witness. -/
def c4DB : DBState :=
  ⟨[⟨"c", "k", "g", some "v", some "r", some "t", some 1⟩,
    ⟨"c", "k2", "g2", none, none, none, some 1⟩], [], [⟨1, 0, 5, some "s"⟩]⟩

/-- Witness for C4 at the concrete store `c4DB`. -/
theorem finished_monotonic_witness :
    entriesWF c4DB ∧ get_entry_state 0 c4DB "c" "k" = some EState.finished ∧
    (get_entry_state 100 (cleanup_lost_entries 100 c4DB) "c" "k" = some .finished ∧
    get_entry_state 100 (stop_executor 100 1 c4DB) "c" "k" = some .finished ∧
    get_entry_state 100 (setEntryValueUpdate 1 "c" "k2" "vv" "rr" "tt" c4DB).2 "c" "k" =
      some .finished ∧
    (∀ e ∈ c4DB.entries, e.value ≠ none →
      e ∈ (cleanup_lost_entries 100 c4DB).entries ∧
      e ∈ (stop_executor 100 1 c4DB).entries ∧
      e ∈ (setEntryValueUpdate 1 "c" "k2" "vv" "rr" "tt" c4DB).2.entries)) :=
  ⟨by unfold entriesWF; decide, by decide,
   finished_monotonic 0 100 100 c4DB "c" "k" 1 1 "c" "k2" "vv" "rr" "tt"
     (by unfold entriesWF; decide) (by decide)⟩

/-- Inner collect of one round of the recursive CTE
DB.RECURSIVE_CONSUMERS (db.py lines 37-43): the targets
`(collection_t, key_t)` of every `deps` row whose source
`(collection_s, key_s)` is already selected. -/
def consumersFold (deps : List DepRow) (s : Finset (String × String)) :
    Finset (String × String) :=
  deps.foldr (fun d a =>
    if (d.collection_s, d.key_s) ∈ s then insert (d.collection_t, d.key_t) a else a) ∅

/-- One round of the recursive CTE: keep what is selected, add the new
targets (the UNION in RECURSIVE_CONSUMERS). -/
def consumersStep (deps : List DepRow) (s : Finset (String × String)) :
    Finset (String × String) :=
  s ∪ consumersFold deps s

/-- Every target appearing in the `deps` table; the closure can only
grow into this set. -/
def depTargets (deps : List DepRow) : Finset (String × String) :=
  deps.foldr (fun d a => insert (d.collection_t, d.key_t) a) ∅

/-- The set computed by RECURSIVE_CONSUMERS seeded with `(c, k)`: the
fixpoint of the UNION rounds, reached after at most `card + 1` rounds
because each non-final round adds at least one of the finitely many
targets. -/
def selectedSet (deps : List DepRow) (c k : String) : Finset (String × String) :=
  (consumersStep deps)^[(depTargets deps).card + 1] {(c, k)}

/-- DB.remove_entry_by_key (db.py lines 224-229): one statement deleting
every entry whose primary key is in the RECURSIVE_CONSUMERS selection,
with the ON DELETE CASCADE pruning the incident `deps` rows. -/
def remove_entry_by_key (c k : String) (db : DBState) : DBState :=
  let kept := db.entries.filter (fun e =>
    decide ((e.collection, e.key) ∉ selectedSet db.deps c k))
  { db with entries := kept, deps := cascadeDeps db.entries kept db.deps }

/-- Edge of the `deps` table read in the direction RECURSIVE_CONSUMERS
follows it: from a row source (the dependency) to its target (the
consumer). -/
def depEdge (deps : List DepRow) (a b : String × String) : Prop :=
  ∃ d ∈ deps, (d.collection_s, d.key_s) = a ∧ (d.collection_t, d.key_t) = b

/-- `Consumes deps a b` holds when entry `b` transitively depends on
entry `a` (or is `a` itself): there is a chain of `deps` edges from `a`
up to its consumer `b`. -/
def Consumes (deps : List DepRow) (a b : String × String) : Prop :=
  Relation.ReflTransGen (depEdge deps) a b

theorem mem_consumersFold {deps : List DepRow} {s : Finset (String × String)}
    {x : String × String} :
    x ∈ consumersFold deps s ↔
      ∃ d ∈ deps, (d.collection_s, d.key_s) ∈ s ∧ x = (d.collection_t, d.key_t) := by
  induction deps with
  | nil => simp [consumersFold]
  | cons d ds ih =>
    unfold consumersFold
    simp only [List.foldr_cons]
    by_cases hd : (d.collection_s, d.key_s) ∈ s
    · rw [if_pos hd, Finset.mem_insert]
      unfold consumersFold at ih
      rw [ih]
      constructor
      · rintro (rfl | ⟨d2, hd2, hs2, hx2⟩)
        · exact ⟨d, List.mem_cons_self d ds, hd, rfl⟩
        · exact ⟨d2, List.mem_cons_of_mem d hd2, hs2, hx2⟩
      · rintro ⟨d2, hd2, hs2, hx2⟩
        rcases List.mem_cons.mp hd2 with rfl | hmem
        · exact Or.inl hx2
        · exact Or.inr ⟨d2, hmem, hs2, hx2⟩
    · rw [if_neg hd]
      unfold consumersFold at ih
      rw [ih]
      constructor
      · rintro ⟨d2, hd2, hs2, hx2⟩
        exact ⟨d2, List.mem_cons_of_mem d hd2, hs2, hx2⟩
      · rintro ⟨d2, hd2, hs2, hx2⟩
        rcases List.mem_cons.mp hd2 with rfl | hmem
        · exact absurd hs2 hd
        · exact ⟨d2, hmem, hs2, hx2⟩

theorem mem_depTargets {deps : List DepRow} {x : String × String} :
    x ∈ depTargets deps ↔ ∃ d ∈ deps, x = (d.collection_t, d.key_t) := by
  induction deps with
  | nil => simp [depTargets]
  | cons d ds ih =>
    unfold depTargets
    simp only [List.foldr_cons, Finset.mem_insert]
    unfold depTargets at ih
    rw [ih]
    constructor
    · rintro (rfl | ⟨d2, hd2, hx2⟩)
      · exact ⟨d, List.mem_cons_self d ds, rfl⟩
      · exact ⟨d2, List.mem_cons_of_mem d hd2, hx2⟩
    · rintro ⟨d2, hd2, hx2⟩
      rcases List.mem_cons.mp hd2 with rfl | hmem
      · exact Or.inl hx2
      · exact Or.inr ⟨d2, hmem, hx2⟩

theorem subset_consumersStep (deps : List DepRow) (s : Finset (String × String)) :
    s ⊆ consumersStep deps s :=
  Finset.subset_union_left

theorem consumersStep_subset (deps : List DepRow) (s : Finset (String × String)) :
    consumersStep deps s ⊆ s ∪ depTargets deps := by
  intro x hx
  rcases Finset.mem_union.mp hx with hx | hx
  · exact Finset.mem_union_left _ hx
  · rcases mem_consumersFold.mp hx with ⟨d, hd, -, hx2⟩
    exact Finset.mem_union_right _ (mem_depTargets.mpr ⟨d, hd, hx2⟩)

theorem iterate_subset_succ (deps : List DepRow) (s : Finset (String × String))
    (n : Nat) : (consumersStep deps)^[n] s ⊆ (consumersStep deps)^[n + 1] s := by
  rw [Function.iterate_succ_apply']
  exact subset_consumersStep deps _

theorem iterate_subset_union (deps : List DepRow) (s : Finset (String × String))
    (n : Nat) : (consumersStep deps)^[n] s ⊆ s ∪ depTargets deps := by
  induction n with
  | zero => exact Finset.subset_union_left
  | succ n ih =>
    rw [Function.iterate_succ_apply']
    intro x hx
    rcases Finset.mem_union.mp (consumersStep_subset deps _ hx) with hx | hx
    · exact ih hx
    · exact Finset.mem_union_right _ hx

theorem iterate_fixed_from (f : Finset (String × String) → Finset (String × String))
    (s : Finset (String × String)) (i : Nat)
    (hfix : f^[i + 1] s = f^[i] s) (j : Nat) (hj : i ≤ j) : f^[j] s = f^[i] s := by
  induction j with
  | zero =>
    have hi : i = 0 := Nat.le_zero.mp hj
    rw [hi]
  | succ j ih =>
    rcases Nat.lt_or_ge i (j + 1) with hlt | hge
    · have hij : i ≤ j := Nat.lt_succ_iff.mp hlt
      have hj2 := ih hij
      calc f^[j + 1] s = f (f^[j] s) := Function.iterate_succ_apply' f j s
        _ = f (f^[i] s) := by rw [hj2]
        _ = f^[i + 1] s := (Function.iterate_succ_apply' f i s).symm
        _ = f^[i] s := hfix
    · have hi : i = j + 1 := Nat.le_antisymm hj hge
      rw [hi]

theorem exists_iterate_fixpoint (deps : List DepRow) (c k : String) :
    ∃ i ≤ (depTargets deps).card,
      (consumersStep deps)^[i + 1] {(c, k)} = (consumersStep deps)^[i] {(c, k)} := by
  by_contra hnone
  push_neg at hnone
  have hgrow : ∀ i ≤ (depTargets deps).card + 1,
      i + 1 ≤ ((consumersStep deps)^[i] {(c, k)}).card := by
    intro i
    induction i with
    | zero => intro _; simp
    | succ i ih =>
      intro hle
      have hile : i ≤ (depTargets deps).card := by omega
      have hne := hnone i hile
      have hss : (consumersStep deps)^[i] {(c, k)} ⊂ (consumersStep deps)^[i + 1] {(c, k)} :=
        lt_of_le_of_ne (iterate_subset_succ deps _ i) (fun h => hne h.symm)
      have hcard := Finset.card_lt_card hss
      have := ih (by omega)
      omega
  have hbound := hgrow ((depTargets deps).card + 1) (le_refl _)
  have hsub := iterate_subset_union deps {(c, k)} ((depTargets deps).card + 1)
  have hcard_le := Finset.card_le_card hsub
  have hunion : ({(c, k)} ∪ depTargets deps).card ≤ 1 + (depTargets deps).card := by
    have := Finset.card_union_le ({(c, k)} : Finset (String × String)) (depTargets deps)
    simpa using this
  omega

theorem selectedSet_fixed (deps : List DepRow) (c k : String) :
    consumersStep deps (selectedSet deps c k) = selectedSet deps c k := by
  rcases exists_iterate_fixpoint deps c k with ⟨i, hile, hfix⟩
  unfold selectedSet
  have h1 := iterate_fixed_from (consumersStep deps) {(c, k)} i hfix
    ((depTargets deps).card + 1) (by omega)
  have h2 := iterate_fixed_from (consumersStep deps) {(c, k)} i hfix
    ((depTargets deps).card + 2) (by omega)
  calc consumersStep deps ((consumersStep deps)^[(depTargets deps).card + 1] {(c, k)})
      = (consumersStep deps)^[(depTargets deps).card + 2] {(c, k)} :=
        (Function.iterate_succ_apply' _ _ _).symm
    _ = (consumersStep deps)^[i] {(c, k)} := h2
    _ = (consumersStep deps)^[(depTargets deps).card + 1] {(c, k)} := h1.symm

theorem seed_subset_iterate (deps : List DepRow) (s : Finset (String × String))
    (n : Nat) : s ⊆ (consumersStep deps)^[n] s := by
  induction n with
  | zero => exact subset_rfl
  | succ n ih =>
    intro x hx
    exact iterate_subset_succ deps s n (ih hx)

theorem iterate_sound (deps : List DepRow) (c k : String) (n : Nat) :
    ∀ x ∈ (consumersStep deps)^[n] {(c, k)}, Consumes deps (c, k) x := by
  induction n with
  | zero =>
    intro x hx
    rw [Finset.mem_singleton.mp hx]
    exact Relation.ReflTransGen.refl
  | succ n ih =>
    intro x hx
    rw [Function.iterate_succ_apply'] at hx
    rcases Finset.mem_union.mp hx with hx | hx
    · exact ih x hx
    · rcases mem_consumersFold.mp hx with ⟨d, hd, hs, rfl⟩
      exact Relation.ReflTransGen.tail (ih _ hs) ⟨d, hd, rfl, rfl⟩

theorem mem_selectedSet_iff (deps : List DepRow) (c k : String)
    (x : String × String) :
    x ∈ selectedSet deps c k ↔ Consumes deps (c, k) x := by
  constructor
  · exact iterate_sound deps c k _ x
  · intro hcon
    induction hcon with
    | refl =>
      exact seed_subset_iterate deps {(c, k)} _ (Finset.mem_singleton_self _)
    | tail hab hbc ih =>
      rcases hbc with ⟨d, hd, hsrc, htgt⟩
      have hstep : _ ∈ consumersStep deps (selectedSet deps c k) :=
        Finset.mem_union_right _ (mem_consumersFold.mpr ⟨d, hd, hsrc ▸ ih, htgt.symm⟩)
      rw [selectedSet_fixed] at hstep
      exact hstep

/-- C7: `remove_entry_by_key` deletes exactly the entry itself together
with every entry that transitively depends on it: a pre-existing row
survives iff it is not a (reflexive-)transitive consumer of `(c, k)`,
and in particular no surviving row has `(c, k)` in its transitive
dependency set. -/
theorem remove_entry_by_key_closure (c k : String) (db : DBState) :
    (∀ e ∈ db.entries, e ∈ (remove_entry_by_key c k db).entries ↔
      ¬ Consumes db.deps (c, k) (e.collection, e.key)) ∧
    (∀ e ∈ (remove_entry_by_key c k db).entries,
      e ∈ db.entries ∧ ¬ Consumes db.deps (c, k) (e.collection, e.key)) := by
  have hmem : ∀ e : EntryRow, e ∈ (remove_entry_by_key c k db).entries ↔
      e ∈ db.entries ∧ ¬ Consumes db.deps (c, k) (e.collection, e.key) := by
    intro e
    show e ∈ db.entries.filter _ ↔ _
    rw [List.mem_filter, decide_eq_true_eq, mem_selectedSet_iff]
  exact ⟨fun e he => by rw [hmem e]; exact ⟨fun h => h.2, fun h => ⟨he, h⟩⟩,
         fun e he => (hmem e).mp he⟩

/-- Connection-level state for the `transaction` context manager of
db.py (lines 12-30): the committed database plus, when a transaction is
open on the connection, its working copy. The connection is created
with isolation_level None (db.py line 47), i.e. autocommit with only
explicit transactions. -/
structure Conn where
  committed : DBState
  tx : Option DBState
  deriving DecidableEq

/-- One attempt of the BEGIN IMMEDIATE retry loop in `transaction`
(db.py lines 17-23). With isolation_level None the sqlite3 module does
not rewrite statements, so BEGIN IMMEDIATE issued while the same
connection already has an open transaction raises
sqlite3.OperationalError (cannot start a transaction within a
transaction), exactly the exception class the loop catches before
sleeping and retrying. All statements of a `DB` run on the single
worker thread of `DB._run` (db.py lines 52-63), so nothing can commit
the open transaction while that thread sleeps between attempts: the
outcome of an attempt depends only on the connection state, never on
the attempt number. -/
def beginAttempt (c : Conn) (attempt : Nat) : Bool := c.tx.isNone

/-- The BEGIN retry loop of `transaction`, observed for `fuel`
attempts: it exits as soon as one attempt succeeds, opening the
transaction; `none` means it is still spinning after `fuel` attempts
(the Python loop has no bound at all). -/
def beginRetry (c : Conn) : Nat → Option Conn
  | 0 => none
  | n + 1 =>
    if beginAttempt c n then some { c with tx := some c.committed }
    else beginRetry c n

/-- DB.announce_entries (db.py lines 263-285) at transaction-control
level. The helper enters `with transaction(self.conn)` (outer BEGIN)
and, inside that block, calls `_cleanup_lost_entries`, which enters
`with transaction(self.conn)` again (db.py line 260). The nested BEGIN
IMMEDIATE spins in the retry loop before the cleanup DELETE, the
entries INSERT or the deps INSERT of the function is reached, so the
only observable outcomes within any number of attempts are the two
`none` branches; the last branch is dead for every fuel
(`beginRetry_none_of_inTx`), left only to close the match. -/
def announce_entries (executor_id : Nat) (refs : List (String × String))
    (deps : List ((String × String) × (String × String))) (fuel : Nat)
    (c : Conn) : Option (Bool × Conn) :=
  match beginRetry c fuel with
  | none => none
  | some c1 =>
    match beginRetry c1 fuel with
    | none => none
    | some _ => none

theorem beginRetry_none_of_inTx (db w : DBState) (fuel : Nat) :
    beginRetry ⟨db, some w⟩ fuel = none := by
  induction fuel with
  | zero => rfl
  | succ n ih =>
    show (if beginAttempt ⟨db, some w⟩ n then _ else beginRetry ⟨db, some w⟩ n) = none
    rw [show beginAttempt ⟨db, some w⟩ n = false from rfl]
    simpa using ih

theorem beginRetry_of_idle (db : DBState) (fuel : Nat) :
    beginRetry ⟨db, none⟩ (fuel + 1) = some ⟨db, some db⟩ := rfl

/-- C1 (code bug): called on an idle connection -- which is how every
`announce_entries` call arrives, since `DB._run` serializes whole
helpers -- the function never returns, for any number of BEGIN retry
attempts: the outer transaction opens and then the nested transaction
opened by `_cleanup_lost_entries` spins forever, every one of its BEGIN
attempts failing. So no refs or deps rows are ever inserted, no
IntegrityError rollback can occur, and the lost-announcement indication
(the False return) is never produced. -/
theorem announce_entries_never_returns (executor_id : Nat)
    (refs : List (String × String))
    (deps : List ((String × String) × (String × String)))
    (fuel : Nat) (db : DBState) :
    announce_entries executor_id refs deps fuel ⟨db, none⟩ = none ∧
    (∀ n : Nat, beginAttempt ⟨db, some db⟩ n = false) := by
  refine ⟨?_, fun n => rfl⟩
  cases fuel with
  | zero => rfl
  | succ n =>
    simp [announce_entries, beginRetry_of_idle db n, beginRetry_none_of_inTx db db (n + 1)]

/-- C2 (code bug): `announce_entries` does not execute cleanup, ref
insertion and dep insertion inside one serialized transaction. In the
source the cleanup sits in a first `with transaction` block and the
insertions in a second, and the cleanup helper opens a further nested
transaction whose BEGIN can never succeed: from the open-transaction
state every retry attempt fails and the loop never exits, so the call
never reaches any of its three statements. -/
theorem announce_entries_not_one_transaction (executor_id : Nat)
    (refs : List (String × String))
    (deps : List ((String × String) × (String × String)))
    (fuel : Nat) (db w : DBState) :
    beginRetry ⟨db, some w⟩ fuel = none ∧
    announce_entries executor_id refs deps fuel ⟨db, none⟩ = none := by
  refine ⟨beginRetry_none_of_inTx db w fuel, ?_⟩
  exact (announce_entries_never_returns executor_id refs deps fuel db).1

/-- A planner reference: collection name plus config. The `Ref` class
itself lives in collection.py, outside the shown sources; per the spec
a reference is exactly the pair (collection name, config). -/
structure RefM where
  collName : String
  config : String
  deriving DecidableEq

/-- Modelled from the spec: `ref.ref_key()` (collection.py, not among
the shown sources) is the identity of a reference, the collection name
paired with the stable key digest of its config; the digest is the
`keyOf` parameter. -/
def refKey (keyOf : String → String) (r : RefM) : String × String :=
  (r.collName, keyOf r.config)

/-- The entries row the first INSERT batch of `announce_entries`
(db.py lines 270-274) builds for a ref: only collection, key, config
and the announcing executor are set; value, value_repr and created
stay NULL. -/
def annRow (keyOf : String → String) (executor_id : Nat) (r : RefM) : EntryRow :=
  ⟨r.collName, keyOf r.config, r.config, none, none, none, some executor_id⟩

/-- The deps row the second INSERT batch of `announce_entries` (db.py
lines 275-281) builds for a pair: the dependency is the source, the
consumer the target. -/
def annEdge (keyOf : String → String) (p : RefM × RefM) : DepRow :=
  ⟨p.1.collName, keyOf p.1.config, p.2.collName, keyOf p.2.config⟩

/-- Effect of the two INSERT batches of `announce_entries` on the
store, had control reached them. This is the post-state of a successful
announcement that claim C6 presupposes. -/
def announceEffect (keyOf : String → String) (executor_id : Nat)
    (refs : List RefM) (gdeps : List (RefM × RefM)) (db : DBState) : DBState :=
  { db with
    entries := db.entries ++ refs.map (annRow keyOf executor_id),
    deps := db.deps ++ gdeps.map (annEdge keyOf) }

/-- The deletion filter of `unannounce_entries`: a row of the announced
batch that is still unfinished. -/
def unannHit (keyOf : String → String) (executor_id : Nat) (refs : List RefM)
    (e : EntryRow) : Bool :=
  decide ((e.collection, e.key) ∈ refs.map (refKey keyOf) ∧
    e.value = none ∧ e.executor = some executor_id)

/-- Modelled from the spec: `unannounce_entries` is invoked by
`Runtime.compute_refs` (runtime.py line 151) but missing from the shown
Store; spec section 4.4 step 6 and the section 9 open question describe
it as the inverse of `announce_entries` without integrity check --
delete the announced-but-unfinished rows of the given executor for the
given refs, and their dependency edges (the cascade). -/
def unannounce_entries (keyOf : String → String) (executor_id : Nat)
    (refs : List RefM) (db : DBState) : DBState :=
  ⟨db.entries.filter (fun e => !(unannHit keyOf executor_id refs e)),
   cascadeDeps db.entries
     (db.entries.filter (fun e => !(unannHit keyOf executor_id refs e))) db.deps,
   db.executors⟩

/-- The failure path of `Runtime.compute_refs` (runtime.py lines
136-152): after a successful announcement, any exception escaping the
try block triggers `unannounce_entries(executor.id,
need_to_compute_refs)` and then re-raises. The opaque task runner may
have written to the store before failing; its effect is the `runner`
argument. -/
def compute_refs_failure_path (keyOf : String → String) (executor_id : Nat)
    (refs : List RefM) (gdeps : List (RefM × RefM)) (db : DBState)
    (runner : DBState → DBState) : DBState :=
  unannounce_entries keyOf executor_id refs
    (runner (announceEffect keyOf executor_id refs gdeps db))

/-- Counterexample to C6 as stated: the runner finishes the single
announced task (the UPDATE of `set_entry_value`) and then fails. The
failure path only deletes announced-but-unfinished rows, so the row
announced by this very call survives with its value set, contradicting
that no row announced by the call survives. -/
theorem compute_refs_failure_counterexample :
    (compute_refs_failure_path id 1 [⟨"c", "k"⟩] [] ⟨[], [], []⟩
      (fun d => (setEntryValueUpdate 1 "c" "k" "v" "r" "t" d).2)).entries =
      [⟨"c", "k", "k", some "v", some "r", some "t", some 1⟩] ∧
    ("c", "k") ∈ ([⟨"c", "k"⟩] : List RefM).map (refKey id) := by
  exact ⟨by decide, by decide⟩

theorem keyRemoved_eq_false (old kept : List EntryRow) (c k : String)
    (h : ∀ e ∈ old, (e.collection = c ∧ e.key = k) → e ∈ kept) :
    keyRemoved old kept c k = false := by
  simp only [keyRemoved, List.any_eq_false, decide_eq_true_eq]
  rintro e he ⟨hc, hk, hnk⟩
  exact hnk (h e he ⟨hc, hk⟩)

theorem keyRemoved_eq_true (old kept : List EntryRow) (c k : String)
    (e : EntryRow) (he : e ∈ old) (hc : e.collection = c) (hk : e.key = k)
    (hnk : e ∉ kept) : keyRemoved old kept c k = true := by
  simp only [keyRemoved, List.any_eq_true, decide_eq_true_eq]
  exact ⟨e, he, hc, hk, hnk⟩

theorem bnot_decide_eq_false {p : Prop} [Decidable p] (hp : p) :
    (!(decide p)) = false := by
  rw [decide_eq_true hp]
  rfl

theorem bnot_decide_eq_true {p : Prop} [Decidable p] (hp : ¬p) :
    (!(decide p)) = true := by
  rw [decide_eq_false hp]
  rfl

/-- C6 amended: the failure path of `compute_refs` removes every row of
the announced batch that is still unfinished (NULL value, owned by the
announcing executor) whatever the runner did before failing; rows of
the batch the runner already finished survive. When the runner wrote
nothing and the announced keys and their edges were fresh, the rollback
is exact: the store returns to its pre-announcement state. -/
theorem compute_refs_failure_rollback (keyOf : String → String) (eid : Nat)
    (refs : List RefM) (gdeps : List (RefM × RefM)) (db : DBState)
    (runner : DBState → DBState)
    (hfresh : ∀ e ∈ db.entries, (e.collection, e.key) ∉ refs.map (refKey keyOf))
    (hdfresh : ∀ d ∈ db.deps,
      (d.collection_s, d.key_s) ∉ refs.map (refKey keyOf) ∧
      (d.collection_t, d.key_t) ∉ refs.map (refKey keyOf))
    (hgd : ∀ p ∈ gdeps, refKey keyOf p.2 ∈ refs.map (refKey keyOf)) :
    (∀ e ∈ (compute_refs_failure_path keyOf eid refs gdeps db runner).entries,
      ¬((e.collection, e.key) ∈ refs.map (refKey keyOf) ∧
        e.value = none ∧ e.executor = some eid)) ∧
    compute_refs_failure_path keyOf eid refs gdeps db id = db := by
  constructor
  · intro e he
    have h2 := (List.mem_filter.mp he).2
    simp only [Bool.not_eq_true', unannHit, decide_eq_false_iff_not] at h2
    exact h2
  · have hkept : (announceEffect keyOf eid refs gdeps db).entries.filter
        (fun e => !(unannHit keyOf eid refs e)) = db.entries := by
      show (db.entries ++ refs.map (annRow keyOf eid)).filter _ = db.entries
      rw [List.filter_append]
      have h1 : db.entries.filter (fun e => !(unannHit keyOf eid refs e)) =
          db.entries := by
        rw [List.filter_eq_self]
        intro e he
        refine bnot_decide_eq_true ?_
        rintro ⟨hmem, -, -⟩
        exact hfresh e he hmem
      have h2 : (refs.map (annRow keyOf eid)).filter
          (fun e => !(unannHit keyOf eid refs e)) = [] := by
        rw [List.filter_eq_nil_iff]
        intro a ha
        rcases List.mem_map.mp ha with ⟨r, hr, rfl⟩
        have hhit : (((annRow keyOf eid r).collection, (annRow keyOf eid r).key) ∈
            refs.map (refKey keyOf) ∧ (annRow keyOf eid r).value = none ∧
            (annRow keyOf eid r).executor = some eid) :=
          ⟨List.mem_map_of_mem (refKey keyOf) hr, rfl, rfl⟩
        rw [unannHit, bnot_decide_eq_false hhit]
        exact Bool.false_ne_true
      rw [h1, h2, List.append_nil]
    have hnew_removed : ∀ r ∈ refs, annRow keyOf eid r ∉ db.entries := by
      intro r hr hmem
      exact hfresh _ hmem (List.mem_map_of_mem (refKey keyOf) hr)
    have hcas : cascadeDeps (announceEffect keyOf eid refs gdeps db).entries
        db.entries (announceEffect keyOf eid refs gdeps db).deps = db.deps := by
      show cascadeDeps (db.entries ++ refs.map (annRow keyOf eid)) db.entries
        (db.deps ++ gdeps.map (annEdge keyOf)) = db.deps
      unfold cascadeDeps
      rw [List.filter_append]
      have hsafe : ∀ (c k : String), (c, k) ∉ refs.map (refKey keyOf) →
          keyRemoved (db.entries ++ refs.map (annRow keyOf eid)) db.entries c k =
            false := by
        intro c k hck
        apply keyRemoved_eq_false
        intro e he hek
        rcases List.mem_append.mp he with he | he
        · exact he
        · exfalso
          rcases List.mem_map.mp he with ⟨r, hr, rfl⟩
          apply hck
          rw [← hek.1, ← hek.2]
          exact List.mem_map_of_mem (refKey keyOf) hr
      have hold : db.deps.filter (fun d =>
          !(keyRemoved (db.entries ++ refs.map (annRow keyOf eid)) db.entries
            d.collection_s d.key_s) &&
          !(keyRemoved (db.entries ++ refs.map (annRow keyOf eid)) db.entries
            d.collection_t d.key_t)) = db.deps := by
        rw [List.filter_eq_self]
        intro d hd
        rw [hsafe d.collection_s d.key_s (hdfresh d hd).1,
            hsafe d.collection_t d.key_t (hdfresh d hd).2]
        rfl
      have hnew : (gdeps.map (annEdge keyOf)).filter (fun d =>
          !(keyRemoved (db.entries ++ refs.map (annRow keyOf eid)) db.entries
            d.collection_s d.key_s) &&
          !(keyRemoved (db.entries ++ refs.map (annRow keyOf eid)) db.entries
            d.collection_t d.key_t)) = [] := by
        rw [List.filter_eq_nil_iff]
        intro d hd
        rcases List.mem_map.mp hd with ⟨p, hp, rfl⟩
        rcases List.mem_map.mp (hgd p hp) with ⟨r, hr, hkeyeq⟩
        have hrem : keyRemoved (db.entries ++ refs.map (annRow keyOf eid))
            db.entries (annEdge keyOf p).collection_t (annEdge keyOf p).key_t =
            true := by
          refine keyRemoved_eq_true _ _ _ _ (annRow keyOf eid r)
            (List.mem_append.mpr (Or.inr (List.mem_map_of_mem _ hr)))
            (congrArg Prod.fst hkeyeq) (congrArg Prod.snd hkeyeq)
            (hnew_removed r hr)
        rw [hrem]
        simp
      rw [hold, hnew, List.append_nil]
    show unannounce_entries keyOf eid refs (announceEffect keyOf eid refs gdeps db) = db
    unfold unannounce_entries
    rw [hkept, hcas]
    show (⟨db.entries, db.deps, db.executors⟩ : DBState) = db
    rfl

/-- Pre-announcement store for the C6 witness: one finished entry that
the announced batch will depend on. -/
def c6DB : DBState := ⟨[⟨"d", "x", "g", some "v", none, none, none⟩], [], []⟩

/-- Witness for the amended C6 at a concrete batch over `c6DB`. -/
theorem compute_refs_failure_rollback_witness :
    (∀ e ∈ (compute_refs_failure_path id 1 [⟨"c", "k"⟩]
        [(⟨"d", "x"⟩, ⟨"c", "k"⟩)] c6DB id).entries,
      ¬((e.collection, e.key) ∈ ([⟨"c", "k"⟩] : List RefM).map (refKey id) ∧
        e.value = none ∧ e.executor = some 1)) ∧
    compute_refs_failure_path id 1 [⟨"c", "k"⟩]
      [(⟨"d", "x"⟩, ⟨"c", "k"⟩)] c6DB id = c6DB :=
  compute_refs_failure_rollback id 1 [⟨"c", "k"⟩] [(⟨"d", "x"⟩, ⟨"c", "k"⟩)]
    c6DB id (by decide) (by decide) (by decide)

/-- The collection registry and key function as the planner sees them:
`depFn name` is the optional dependency callback of the collection
(`collection.dep_fn`), `hasBuild name` tells whether it has a build
callback (`collection.build_fn is not None`), and `keyOf` is the stable
key digest of a config (spec section 4.2; the key machinery lives in
collection.py, outside the shown sources). -/
structure PlanParams where
  depFn : String → Option (String → List RefM)
  hasBuild : String → Bool
  keyOf : String → String

/-- A node of the in-memory DAG `make_task` builds: either a bare
reference (already finished entries) or a `Task(ref, inputs)`; Python
stores both in the same `inputs` lists. -/
inductive NodeM where
  | ref (r : RefM)
  | task (ref : RefM) (inputs : Option (List NodeM))

/-- The mutable maps of `Runtime.compute_refs` (runtime.py lines
93-95): `tasks` keyed by ref key in insertion order, the `exists` set,
and the `global_deps` set of (dependency, consumer) pairs. -/
structure PlanState where
  tasks : List ((String × String) × NodeM)
  exist : List (String × String)
  global_deps : List (RefM × RefM)

/-- Python dict lookup `tasks.get(ref_key)`. -/
def lookupTask (rk : String × String)
    (l : List ((String × String) × NodeM)) : Option NodeM :=
  match l.find? (fun p => decide (p.1 = rk)) with
  | none => none
  | some p => some p.2

/-- Python dict assignment `tasks[ref_key] = task`: replace in place if
the key is bound, append otherwise. -/
def insertTask (rk : String × String) (t : NodeM)
    (l : List ((String × String) × NodeM)) :
    List ((String × String) × NodeM) :=
  if (lookupTask rk l).isSome then
    l.map (fun p => if p.1 = rk then (rk, t) else p)
  else l ++ [(rk, t)]

/-- Python set insert for `global_deps.add`. -/
def addDep (p : RefM × RefM) (l : List (RefM × RefM)) : List (RefM × RefM) :=
  if p ∈ l then l else l ++ [p]

/-- The `for r in deps: global_deps.add((r, ref))` loop. -/
def addDeps (ps : List (RefM × RefM)) (l : List (RefM × RefM)) :
    List (RefM × RefM) :=
  ps.foldl (fun acc p => addDep p acc) l

mutual

/-- Runtime.compute_refs.make_task (runtime.py lines 97-123), with
`makeTasks` for the `inputs = [make_task(r) for r in deps]`
comprehension. The store snapshot `db` and clock are fixed for the
whole expansion (each Python `get_entry_state` is its own read; the
model reads one snapshot). The Python recursion has no depth bound;
`fuel` bounds it here, and exhaustion is one more way to fail. Errors
mirror the two raises of `make_task`. -/
def makeTask (P : PlanParams) (now : Int) (db : DBState) :
    Nat → RefM → PlanState → Except String (NodeM × PlanState)
  | 0, _, _ => .error "recursion limit"
  | fuel + 1, r, st =>
    let rk := refKey P.keyOf r
    if rk ∈ st.exist then .ok (.ref r, st)
    else
      match lookupTask rk st.tasks with
      | some t => .ok (t, st)
      | none =>
        match get_entry_state now db rk.1 rk.2 with
        | some .finished => .ok (.ref r, { st with exist := rk :: st.exist })
        | some .announced =>
          .error "Computation needs announced but not finished entries"
        | none =>
          match P.depFn r.collName with
          | some df =>
            let drefs := df r.config
            let st1 := { st with
              global_deps := addDeps (drefs.map (fun d => (d, r))) st.global_deps }
            match makeTasks P now db fuel drefs st1 with
            | .error e => .error e
            | .ok (inputs, st2) =>
              if P.hasBuild r.collName then
                .ok (.task r (some inputs),
                     { st2 with tasks := insertTask rk (.task r (some inputs)) st2.tasks })
              else .error "Computation depends on missing configuration"
          | none =>
            if P.hasBuild r.collName then
              .ok (.task r none,
                   { st with tasks := insertTask rk (.task r none) st.tasks })
            else .error "Computation depends on missing configuration"
termination_by fuel r st => (fuel, 0)

/-- The list comprehension over the dependency refs. -/
def makeTasks (P : PlanParams) (now : Int) (db : DBState) :
    Nat → List RefM → PlanState → Except String (List NodeM × PlanState)
  | _, [], st => .ok ([], st)
  | fuel, r :: rs, st =>
    match makeTask P now db fuel r st with
    | .error e => .error e
    | .ok (n, st1) =>
      match makeTasks P now db fuel rs st1 with
      | .error e => .error e
      | .ok (ns, st2) => .ok (n :: ns, st2)
termination_by fuel rs st => (fuel, rs.length + 1)

end

/-- Well-formedness of the planner maps: `tasks` binds each ref key at
most once, and no task key is also in the `exists` set. -/
def PlanWF (st : PlanState) : Prop :=
  st.tasks.Pairwise (fun a b => a.1 ≠ b.1) ∧ ∀ p ∈ st.tasks, p.1 ∉ st.exist

/-- Keys only enter the `exists` set when the store answered finished
for them. -/
def existChar (now : Int) (db : DBState) (st st' : PlanState) : Prop :=
  ∀ x ∈ st'.exist, x ∈ st.exist ∨ get_entry_state now db x.1 x.2 = some .finished

theorem existChar_refl (now : Int) (db : DBState) (st : PlanState) :
    existChar now db st st := fun _ hx => Or.inl hx

theorem existChar_trans {now : Int} {db : DBState} {s1 s2 s3 : PlanState}
    (h1 : existChar now db s1 s2) (h2 : existChar now db s2 s3) :
    existChar now db s1 s3 := by
  intro x hx
  rcases h2 x hx with hx2 | hfin
  · exact h1 x hx2
  · exact Or.inr hfin

theorem lookupTask_none {rk : String × String}
    {l : List ((String × String) × NodeM)} (h : lookupTask rk l = none) :
    ∀ p ∈ l, p.1 ≠ rk := by
  intro p hp heq
  unfold lookupTask at h
  cases hf : l.find? (fun p => decide (p.1 = rk)) with
  | none =>
    have := List.find?_eq_none.mp hf p hp
    simp [heq] at this
  | some q => rw [hf] at h; cases h

theorem lookupTask_map_replace (rk : String × String) (t : NodeM)
    (l : List ((String × String) × NodeM)) (h : (lookupTask rk l).isSome) :
    lookupTask rk (l.map (fun p => if p.1 = rk then (rk, t) else p)) = some t := by
  induction l with
  | nil => simp [lookupTask] at h
  | cons p ps ih =>
    by_cases hp : p.1 = rk
    · unfold lookupTask
      rw [List.map_cons, if_pos hp,
        List.find?_cons_of_pos _ (by simp)]
    · unfold lookupTask
      rw [List.map_cons, if_neg hp,
        List.find?_cons_of_neg _ (by simp [hp])]
      have h2 : (lookupTask rk ps).isSome := by
        unfold lookupTask at h
        rw [List.find?_cons_of_neg _ (by simp [hp])] at h
        exact h
      have := ih h2
      unfold lookupTask at this
      exact this

theorem lookupTask_append_self (rk : String × String) (t : NodeM)
    (l : List ((String × String) × NodeM)) (h : lookupTask rk l = none) :
    lookupTask rk (l ++ [(rk, t)]) = some t := by
  induction l with
  | nil =>
    unfold lookupTask
    rw [List.nil_append, List.find?_cons_of_pos _ (by simp)]
  | cons p ps ih =>
    have hp : ¬(p.1 = rk) := lookupTask_none h p (List.mem_cons_self p ps)
    unfold lookupTask
    rw [List.cons_append, List.find?_cons_of_neg _ (by simp [hp])]
    have h2 : lookupTask rk ps = none := by
      unfold lookupTask at h
      rw [List.find?_cons_of_neg _ (by simp [hp])] at h
      cases hf : ps.find? (fun q => decide (q.1 = rk)) with
      | none => unfold lookupTask; rw [hf]
      | some q => rw [hf] at h; cases h
    have := ih h2
    unfold lookupTask at this
    exact this

theorem lookupTask_insert_self (rk : String × String) (t : NodeM)
    (l : List ((String × String) × NodeM)) :
    lookupTask rk (insertTask rk t l) = some t := by
  unfold insertTask
  by_cases hs : (lookupTask rk l).isSome
  · rw [if_pos hs]
    exact lookupTask_map_replace rk t l hs
  · rw [if_neg hs]
    exact lookupTask_append_self rk t l (Option.not_isSome_iff_eq_none.mp hs)

theorem mem_insertTask {p : (String × String) × NodeM} {rk : String × String}
    {t : NodeM} {l : List ((String × String) × NodeM)}
    (h : p ∈ insertTask rk t l) : p = (rk, t) ∨ p ∈ l := by
  unfold insertTask at h
  by_cases hs : (lookupTask rk l).isSome
  · rw [if_pos hs] at h
    rcases List.mem_map.mp h with ⟨q, hq, rfl⟩
    by_cases hq1 : q.1 = rk
    · rw [if_pos hq1]
      exact Or.inl rfl
    · rw [if_neg hq1]
      exact Or.inr hq
  · rw [if_neg hs] at h
    rcases List.mem_append.mp h with h | h
    · exact Or.inr h
    · exact Or.inl (List.mem_singleton.mp h)

theorem insertTask_pairwise {rk : String × String} {t : NodeM}
    {l : List ((String × String) × NodeM)}
    (h : l.Pairwise (fun a b => a.1 ≠ b.1)) :
    (insertTask rk t l).Pairwise (fun a b => a.1 ≠ b.1) := by
  unfold insertTask
  by_cases hs : (lookupTask rk l).isSome
  · rw [if_pos hs]
    refine List.Pairwise.map _ ?_ h
    intro a b hab
    by_cases ha : a.1 = rk <;> by_cases hb : b.1 = rk
    · exact absurd (ha.trans hb.symm) hab
    · rw [if_pos ha, if_neg hb]
      exact fun hx => hb hx.symm
    · rw [if_neg ha, if_pos hb]
      exact fun hx => ha hx
    · rw [if_neg ha, if_neg hb]
      exact hab
  · rw [if_neg hs]
    rw [List.pairwise_append]
    refine ⟨h, List.pairwise_singleton _ _, ?_⟩
    intro a ha b hb
    rw [List.mem_singleton.mp hb]
    exact lookupTask_none (Option.not_isSome_iff_eq_none.mp hs) a ha

/-- Invariants of one `make_task` call and of the `inputs`
comprehension: keys enter `exists` only for finished entries, the
planner maps stay well-formed, and a call that returns a `Task` leaves
that task bound to its ref key in `tasks`, with the key outside
`exists`. -/
theorem plan_post (P : PlanParams) (now : Int) (db : DBState) : ∀ fuel : Nat,
    (∀ r st n st', makeTask P now db fuel r st = .ok (n, st') →
      existChar now db st st' ∧ (PlanWF st → PlanWF st') ∧
      ∀ rf ins, n = NodeM.task rf ins →
        lookupTask (refKey P.keyOf r) st'.tasks = some n ∧
        refKey P.keyOf r ∉ st'.exist) ∧
    (∀ rs st ns st', makeTasks P now db fuel rs st = .ok (ns, st') →
      existChar now db st st' ∧ (PlanWF st → PlanWF st')) := by
  intro fuel
  induction fuel with
  | zero =>
    constructor
    · intro r st n st' hok
      simp only [makeTask] at hok
      exact nomatch hok
    · intro rs st ns st' hok
      cases rs with
      | nil =>
        simp only [makeTasks] at hok
        cases hok
        exact ⟨existChar_refl now db st, fun h => h⟩
      | cons r rs =>
        simp only [makeTasks, makeTask] at hok
        exact nomatch hok
  | succ fuel ih =>
    have hT : ∀ r st n st', makeTask P now db (fuel + 1) r st = .ok (n, st') →
        existChar now db st st' ∧ (PlanWF st → PlanWF st') ∧
        ∀ rf ins, n = NodeM.task rf ins →
          lookupTask (refKey P.keyOf r) st'.tasks = some n ∧
          refKey P.keyOf r ∉ st'.exist := by
      intro r st n st' hok
      simp only [makeTask] at hok
      split at hok
      · -- ref key already in exists: return the ref unchanged
        cases hok
        exact ⟨existChar_refl now db st, fun h => h, fun rf ins htask => nomatch htask⟩
      · rename_i hin
        split at hok
        · -- ref key already a task: return the stored node unchanged
          rename_i t heq
          cases hok
          exact ⟨existChar_refl now db st, fun h => h,
            fun rf ins htask => ⟨heq, hin⟩⟩
        · rename_i heq
          split at hok
          · -- finished: record the key in exists, return the ref
            rename_i heq2
            cases hok
            refine ⟨?_, ?_, fun rf ins htask => nomatch htask⟩
            · intro x hx
              rcases List.mem_cons.mp hx with rfl | hx
              · exact Or.inr heq2
              · exact Or.inl hx
            · rintro ⟨hpw, hdisj⟩
              refine ⟨hpw, ?_⟩
              intro p hp hmem
              rcases List.mem_cons.mp hmem with hrk | hmem
              · exact lookupTask_none heq p hp hrk
              · exact hdisj p hp hmem
          · -- announced: the call raises
            cases hok
          · -- missing entry
            rename_i heq2
            split at hok
            · -- the collection has a dependency callback
              rename_i df heqdf
              split at hok
              · cases hok
              · rename_i inputs st2 heqmt
                have hpost2 := (ih.2 _ _ _ _ heqmt)
                split at hok
                · rename_i hbuild
                  cases hok
                  have hrknotex2 : refKey P.keyOf r ∉ st2.exist := by
                    intro hmem
                    rcases hpost2.1 _ hmem with hx2 | hfin
                    · exact hin hx2
                    · rw [heq2] at hfin
                      cases hfin
                  refine ⟨?_, ?_, ?_⟩
                  · intro x hx
                    rcases hpost2.1 x hx with hx2 | hfin
                    · exact Or.inl hx2
                    · exact Or.inr hfin
                  · rintro hwf
                    have hwf2 := hpost2.2 hwf
                    refine ⟨insertTask_pairwise hwf2.1, ?_⟩
                    intro p hp hmem
                    rcases mem_insertTask hp with rfl | hp2
                    · exact hrknotex2 hmem
                    · exact hwf2.2 p hp2 hmem
                  · intro rf ins htask
                    exact ⟨lookupTask_insert_self _ _ _, hrknotex2⟩
                · cases hok
            · -- fixed collection: no dependency callback
              rename_i heqdf
              split at hok
              · rename_i hbuild
                cases hok
                refine ⟨existChar_refl now db st, ?_, ?_⟩
                · rintro ⟨hpw, hdisj⟩
                  refine ⟨insertTask_pairwise hpw, ?_⟩
                  intro p hp hmem
                  rcases mem_insertTask hp with rfl | hp2
                  · exact hin hmem
                  · exact hdisj p hp2 hmem
                · intro rf ins htask
                  exact ⟨lookupTask_insert_self _ _ _, hin⟩
              · cases hok
    refine ⟨hT, ?_⟩
    intro rs
    induction rs with
    | nil =>
      intro st ns st' hok
      simp only [makeTasks] at hok
      cases hok
      exact ⟨existChar_refl now db st, fun h => h⟩
    | cons r rs ihrs =>
      intro st ns st' hok
      simp only [makeTasks] at hok
      split at hok
      · cases hok
      · rename_i nh st1 heq1
        split at hok
        · cases hok
        · rename_i ns2 st2 heq2
          cases hok
          obtain ⟨hchar1, hwf1, -⟩ := hT _ _ _ _ heq1
          obtain ⟨hchar2, hwf2⟩ := ihrs _ _ _ heq2
          exact ⟨existChar_trans hchar1 hchar2, fun h => hwf2 (hwf1 h)⟩

/-- C8: task sharing is by ref key. If one `make_task` call in a
request returns a `Task` node, then a later `make_task` call on any
reference with the same key returns that very node and leaves the
planner state untouched, and the `tasks` map stays well-formed (one
binding per key, so each key is announced and scheduled at most once
when the map is turned into the announcement batch). -/
theorem make_task_shares_by_key (P : PlanParams) (now : Int) (db : DBState)
    (f1 f2 : Nat) (r1 r2 : RefM) (st st1 st2 : PlanState) (n1 n2 : NodeM)
    (rf : RefM) (ins : Option (List NodeM))
    (hwf : PlanWF st)
    (h1 : makeTask P now db f1 r1 st = .ok (n1, st1))
    (htask : n1 = NodeM.task rf ins)
    (hkey : refKey P.keyOf r2 = refKey P.keyOf r1)
    (h2 : makeTask P now db (f2 + 1) r2 st1 = .ok (n2, st2)) :
    n2 = n1 ∧ st2 = st1 ∧ PlanWF st1 := by
  obtain ⟨hchar, hwfp, hbind⟩ := (plan_post P now db f1).1 _ _ _ _ h1
  obtain ⟨hlook, hnex⟩ := hbind rf ins htask
  have hwf1 := hwfp hwf
  have heval : makeTask P now db (f2 + 1) r2 st1 = .ok (n1, st1) := by
    simp only [makeTask]
    rw [hkey, if_neg hnex, hlook]
  rw [heval] at h2
  cases h2
  exact ⟨rfl, rfl, hwf1⟩

/-- A registry with one fixed-key collection family: no dependency
callbacks, build callbacks everywhere, identity key digest. -/
def c8Params : PlanParams := ⟨fun _ => none, fun _ => true, fun s => s⟩

/-- Witness for C8: expanding the same reference twice from the empty
planner state yields the same task node and unchanged state. -/
theorem make_task_shares_by_key_witness :
    (NodeM.task ⟨"s", "0"⟩ none = NodeM.task ⟨"s", "0"⟩ none) ∧
    ((⟨[(("s", "0"), NodeM.task ⟨"s", "0"⟩ none)], [], []⟩ : PlanState) =
      ⟨[(("s", "0"), NodeM.task ⟨"s", "0"⟩ none)], [], []⟩) ∧
    PlanWF ⟨[(("s", "0"), NodeM.task ⟨"s", "0"⟩ none)], [], []⟩ :=
  make_task_shares_by_key c8Params 0 ⟨[], [], []⟩ 1 0 ⟨"s", "0"⟩ ⟨"s", "0"⟩
    ⟨[], [], []⟩ ⟨[(("s", "0"), NodeM.task ⟨"s", "0"⟩ none)], [], []⟩
    ⟨[(("s", "0"), NodeM.task ⟨"s", "0"⟩ none)], [], []⟩
    (NodeM.task ⟨"s", "0"⟩ none) (NodeM.task ⟨"s", "0"⟩ none)
    ⟨"s", "0"⟩ none
    ⟨List.Pairwise.nil, fun p hp => absurd hp (List.not_mem_nil p)⟩
    (by simp [makeTask, lookupTask, insertTask, get_entry_state, refKey, c8Params])
    rfl rfl
    (by simp [makeTask, lookupTask, insertTask, refKey, c8Params])

/-- An executor as the in-memory list `Runtime.executors` holds it:
its id and whether it has been stopped (executor.py is outside the
shown sources; the stopped flag matters only to the selection policy
the claim describes, which the code does not implement). -/
structure ExecutorM where
  id : Nat
  stopped : Bool
  deriving DecidableEq

/-- What a `compute_refs` call observably does: raise, or reach the
`announce_entries` call with a selected executor, the refs of all
tasks, and the collected dependency pairs (per
`announce_entries_never_returns` the call never gets past that point);
`done` is the immediate-return outcome that only the claim-side policy
below produces. -/
inductive ComputeOutcome where
  | err (msg : String)
  | announces (executorId : Nat) (needToCompute : List RefM)
      (globalDeps : List (RefM × RefM))
  | done
  deriving DecidableEq

/-- The fresh maps of one compute request (runtime.py lines 93-95). -/
def initPlanState : PlanState := ⟨[], [], []⟩

/-- `need_to_compute_refs = [task.ref for task in tasks.values()]`
(runtime.py line 130). -/
def taskRefs (st : PlanState) : List RefM :=
  st.tasks.map (fun p => match p.2 with | .ref r => r | .task r _ => r)

/-- Runtime.compute_refs (runtime.py lines 92-152) up to its
announcement: the executor check and the selection of `executors[0]`
happen before any expansion (lines 125-127), with no filter on stopped
executors; then the requested refs are expanded; then announce_entries
is invoked with the selected executor, the refs of all tasks and the
dep pairs. -/
def compute_refs (P : PlanParams) (now : Int) (db : DBState)
    (executors : List ExecutorM) (fuel : Nat) (refs : List RefM) :
    ComputeOutcome :=
  match executors with
  | [] => .err "No executors registered"
  | ex :: _ =>
    match makeTasks P now db fuel refs initPlanState with
    | .error e => .err e
    | .ok (_, st) => .announces ex.id (taskRefs st) st.global_deps

/-- The behaviour claim C9 describes, stated from the claim for
comparison: an empty task map returns immediately with nothing
announced and no executor involved; otherwise the first registered
non-stopped executor is selected after expansion, and the request
fails only when no non-stopped executor exists. -/
def compute_refs_claimPolicy (P : PlanParams) (now : Int) (db : DBState)
    (executors : List ExecutorM) (fuel : Nat) (refs : List RefM) :
    ComputeOutcome :=
  match makeTasks P now db fuel refs initPlanState with
  | .error e => .err e
  | .ok (_, st) =>
    if st.tasks.isEmpty then .done
    else
      match executors.find? (fun ex => !ex.stopped) with
      | none => .err "No executors registered"
      | some ex => .announces ex.id (taskRefs st) st.global_deps

/-- Counterexample to C9 as stated: with no executor and nothing to
compute the code still raises (the executor check precedes expansion),
where the claim demands an immediate return; and with a stopped
executor registered first, the code selects it, where the claim
demands the first non-stopped one. -/
theorem compute_refs_policy_counterexample :
    compute_refs c8Params 0 ⟨[], [], []⟩ [] 1 [] = .err "No executors registered" ∧
    compute_refs_claimPolicy c8Params 0 ⟨[], [], []⟩ [] 1 [] = .done ∧
    compute_refs c8Params 0 ⟨[], [], []⟩ [⟨1, true⟩, ⟨2, false⟩] 1 [⟨"s", "0"⟩] =
      .announces 1 [⟨"s", "0"⟩] [] ∧
    compute_refs_claimPolicy c8Params 0 ⟨[], [], []⟩ [⟨1, true⟩, ⟨2, false⟩] 1
      [⟨"s", "0"⟩] = .announces 2 [⟨"s", "0"⟩] [] := by
  refine ⟨rfl, ?_, ?_, ?_⟩ <;>
    simp [compute_refs, compute_refs_claimPolicy, makeTask, makeTasks, taskRefs,
      lookupTask, insertTask, get_entry_state, refKey, c8Params, initPlanState,
      addDeps, addDep]

/-- C9 amended: `compute_refs` checks the executor list before any
expansion and fails exactly when it is empty; otherwise it uses the
head of the list, stopped or not, and even when the request needs
nothing (empty refs, hence an empty task map) it still proceeds to the
announcement with an empty batch instead of returning early. -/
theorem compute_refs_selection (P : PlanParams) (now : Int) (db : DBState)
    (fuel : Nat) (refs : List RefM) (ex : ExecutorM) (rest : List ExecutorM)
    (ns : List NodeM) (st : PlanState)
    (hexp : makeTasks P now db fuel refs initPlanState = .ok (ns, st)) :
    compute_refs P now db [] fuel refs = .err "No executors registered" ∧
    compute_refs P now db (ex :: rest) fuel refs =
      .announces ex.id (taskRefs st) st.global_deps ∧
    compute_refs P now db (ex :: rest) fuel [] = .announces ex.id [] [] := by
  refine ⟨rfl, ?_, ?_⟩
  · simp only [compute_refs]
    rw [hexp]
  · simp [compute_refs, makeTasks, taskRefs, initPlanState]

/-- Witness for the amended C9 at a concrete request. -/
theorem compute_refs_selection_witness :
    compute_refs c8Params 0 ⟨[], [], []⟩ [] 1 [⟨"s", "0"⟩] =
      .err "No executors registered" ∧
    compute_refs c8Params 0 ⟨[], [], []⟩ [⟨1, true⟩, ⟨2, false⟩] 1 [⟨"s", "0"⟩] =
      .announces 1 (taskRefs ⟨[(("s", "0"), NodeM.task ⟨"s", "0"⟩ none)], [], []⟩)
        (⟨[(("s", "0"), NodeM.task ⟨"s", "0"⟩ none)], [], []⟩ : PlanState).global_deps ∧
    compute_refs c8Params 0 ⟨[], [], []⟩ [⟨1, true⟩, ⟨2, false⟩] 1 [] =
      .announces 1 [] [] :=
  compute_refs_selection c8Params 0 ⟨[], [], []⟩ 1 [⟨"s", "0"⟩] ⟨1, true⟩
    [⟨2, false⟩] [NodeM.task ⟨"s", "0"⟩ none]
    ⟨[(("s", "0"), NodeM.task ⟨"s", "0"⟩ none)], [], []⟩
    (by simp [makeTasks, makeTask, lookupTask, insertTask, get_entry_state,
      refKey, c8Params, initPlanState])
